import Mathlib

/-!
Verification development for the `downurl` repository (file `src/downurl.py`).

The Python program is embedded shallowly: its pure helpers become Lean
functions over `List Char` (a Python string is a sequence of Unicode code
points), its effectful steps become explicit state or trace passing, and
fallible library calls (the Python function `urllib.parse.urlparse` can
raise `ValueError`) become `Option`.

Library semantics that the source relies on are modelled from CPython:

* `urllib.parse.urlsplit` first strips leading WHATWG C0-control-or-space
  characters (code points up to U+0020) from the URL, then removes every
  tab, carriage return and line feed, parses a scheme (lowercased) when
  the text before the first colon is a nonempty run of scheme characters
  starting with an ASCII letter, reads a netloc after a leading `//` up
  to the first of `/?#`, raises `ValueError` when the netloc contains `[`
  without `]` or vice versa, and returns as path the remaining text up to
  the first `?` or `#`.
  Two further CPython checks are not modelled: the NFKC check on netlocs
  that are not pure ASCII, and (CPython 3.11 and later) the validation of
  bracketed hosts.  Theorems asserting totality therefore restrict to
  ASCII inputs without square brackets, where real CPython also never
  raises.
* `urllib.parse.urlparse` additionally splits `;params` off the final
  path segment, but only when the scheme is a member of the CPython list
  `uses_params` (which contains the empty scheme).
* The Python method `str.isalnum` is Unicode aware.  It is modelled
  exactly for every code point below U+0100 (ASCII alphanumerics plus the
  Latin-1 letters and numeric characters, per UnicodeData); code points at
  or above U+0100 are unmodelled and mapped to `false`, and every theorem
  that depends on the exact class restricts to code points below U+0100.
* The Python method `str.strip` removes leading and trailing whitespace;
  it is modelled for whitespace code points below U+0100.
* `hashlib.sha1(...).hexdigest()` is implemented in full (FIPS 180 SHA-1
  over the UTF-8 encoding of the string, rendered as 40 lowercase hex
  digits).
-/

/-! ## Python string helpers -/

/-- Unicode whitespace as recognised by the Python method `str.isspace`,
modelled for code points below U+0100 (space, tab, LF, VT, FF, CR, the
separators U+001C to U+001F, NEL U+0085 and NBSP U+00A0). -/
def pyIsSpace (c : Char) : Bool :=
  c = ' ' || c = '\t' || c = '\n' || c.toNat = 13 || c.toNat = 11 || c.toNat = 12 ||
  (28 ≤ c.toNat && c.toNat ≤ 31) || c.toNat = 133 || c.toNat = 160

/-- The Python method `str.strip` with no argument: remove leading and
trailing whitespace. -/
def pyStrip (l : List Char) : List Char :=
  ((l.dropWhile pyIsSpace).reverse.dropWhile pyIsSpace).reverse

/-- The Python method `str.isalnum`, exact on code points below U+0100:
on ASCII it is the class `[A-Za-z0-9]`; on U+0080 to U+00FF it is true for
the ordinal indicators U+00AA and U+00BA, the superscripts U+00B2, U+00B3
and U+00B9, micro U+00B5, the vulgar fractions U+00BC to U+00BE, and the
Latin-1 letters U+00C0 to U+00FF except multiplication U+00D7 and division
U+00F7.  Code points at or above U+0100 are unmodelled (mapped to
`false`); theorems that depend on this function restrict below U+0100. -/
def pyIsAlnum (c : Char) : Bool :=
  if c.toNat < 128 then c.isAlphanum
  else if c.toNat < 256 then
    c.toNat = 170 || c.toNat = 178 || c.toNat = 179 || c.toNat = 181 ||
    c.toNat = 185 || c.toNat = 186 || c.toNat = 188 || c.toNat = 189 ||
    c.toNat = 190 ||
    (192 ≤ c.toNat && c.toNat ≠ 215 && c.toNat ≠ 247)
  else false

/-! ## Model of `urllib.parse.urlparse` (scheme, netloc and path only;
the program uses just `.path` and `.netloc`) -/

/-- The scheme/netloc/path triple returned by the CPython function
`urllib.parse.urlparse`, restricted to the fields the program reads. -/
structure UrlParts where
  netloc : List Char
  path : List Char
deriving DecidableEq, Repr

/-- CPython scheme characters: ASCII letters, digits and `+-.` . -/
def isSchemeChar (c : Char) : Bool :=
  c.isAlphanum || c = '+' || c = '-' || c = '.'

/-- CPython `urlsplit` removes every tab, carriage return and line feed
from the URL before parsing. -/
def removeUnsafeBytes (l : List Char) : List Char :=
  l.filter (fun c => !(c = '\t' || c = '\r' || c = '\n'))

/-- The full CPython `urlsplit` preprocessing: strip leading WHATWG
C0-control-or-space characters (code points up to U+0020), then remove
every tab, carriage return and line feed.  (CPython removes the unsafe
bytes after the lstrip; since tab, CR and LF are themselves control
characters, the composition is the same.) -/
def preprocessUrl (l : List Char) : List Char :=
  removeUnsafeBytes (l.dropWhile (fun c => c.toNat ≤ 32))

/-- Drop a leading `scheme:` when the text before the first colon is
nonempty, starts with an ASCII letter and consists of scheme characters
(the CPython 3.11 check); otherwise return the input unchanged. -/
def restAfterScheme (l : List Char) : List Char :=
  match l.dropWhile (· ≠ ':') with
  | [] => l
  | _ :: rest =>
    match l.takeWhile (· ≠ ':') with
    | [] => l
    | c :: cs => if c.isAlpha && (c :: cs).all isSchemeChar then rest else l

/-- Split off the netloc: after a leading `//`, the netloc runs up to the
first of `/?#` and the rest begins at that delimiter; with no leading
`//` the netloc is empty. -/
def netlocAndRest (l : List Char) : List Char × List Char :=
  match l with
  | '/' :: '/' :: rest =>
    (rest.takeWhile (fun c => !(c = '/' || c = '?' || c = '#')),
     rest.dropWhile (fun c => !(c = '/' || c = '?' || c = '#')))
  | _ => ([], l)

/-- After the netloc is removed, the path is the remaining text up to the
first `?` or `#` (CPython splits the fragment and then the query). -/
def pathOf (l : List Char) : List Char :=
  l.takeWhile (fun c => !(c = '?' || c = '#'))

/-- Model of CPython `urlsplit` on an already-sanitised character list:
`none` models the `ValueError` raised when the netloc contains `[`
without `]` or `]` without `[`. -/
def urlsplitCore (l0 : List Char) : Option UrlParts :=
  let l := restAfterScheme l0
  let netloc := (netlocAndRest l).1
  let rest := (netlocAndRest l).2
  if ('[' ∈ netloc ∧ ']' ∉ netloc) ∨ (']' ∈ netloc ∧ '[' ∉ netloc) then none
  else some ⟨netloc, pathOf rest⟩

/-- CPython `_splitparams`, called by `urlparse` when the path contains
`;`: remove `;` and everything after it from the final `/`-delimited
segment (a `;` before the last `/` is left alone). -/
def splitParams (p : List Char) : List Char :=
  if ';' ∈ p then
    if '/' ∈ p then
      (if ';' ∈ (p.reverse.takeWhile (· ≠ '/')).reverse then
        (p.reverse.dropWhile (· ≠ '/')).reverse ++
          ((p.reverse.takeWhile (· ≠ '/')).reverse.takeWhile (· ≠ ';'))
      else p)
    else p.takeWhile (· ≠ ';')
  else p

/-- The lowercased scheme CPython `urlsplit` extracts from an
already-preprocessed URL, or the empty scheme when the text before the
first colon is not a valid scheme (no colon, empty, not starting with an
ASCII letter, or containing a non-scheme character). -/
def schemeOf (l : List Char) : List Char :=
  match l.dropWhile (· ≠ ':') with
  | [] => []
  | _ :: _ =>
    match l.takeWhile (· ≠ ':') with
    | [] => []
    | c :: cs =>
      if c.isAlpha && (c :: cs).all isSchemeChar then (c :: cs).map Char.toLower
      else []

/-- The CPython list `urllib.parse.uses_params` (3.11): the schemes for
which `urlparse` splits `;params` off the path.  The empty scheme is a
member, so scheme-less URLs do get the split. -/
def usesParams : List (List Char) :=
  [[], "ftp".data, "hdl".data, "http".data, "https".data, "imap".data,
   "mms".data, "prospero".data, "rtsp".data, "rtsps".data, "rtspu".data,
   "sftp".data, "shttp".data, "sip".data, "sips".data, "tel".data]

/-- Model of CPython `urlparse` restricted to netloc and path: `urlsplit`
on the preprocessed URL, then the `;params` split on the path, applied
only when the scheme is in `uses_params` and the path contains a `;`. -/
def urlparseCore (l0 : List Char) : Option UrlParts :=
  match urlsplitCore (preprocessUrl l0) with
  | none => none
  | some p =>
    if schemeOf (preprocessUrl l0) ∈ usesParams ∧ ';' ∈ p.path then
      some ⟨p.netloc, splitParams p.path⟩
    else some p

/-! ## SHA-1 (FIPS 180), used by line 17 of `src/downurl.py` -/

/-- Reduce modulo 2^32. -/
def m32 (x : Nat) : Nat := x % 4294967296

/-- Rotate a 32-bit word left by `s`. -/
def rotl (s x : Nat) : Nat := m32 ((x <<< s) + (x >>> (32 - s)))

/-- UTF-8 encoding of a sequence of Unicode code points (the Python
method `str.encode` with its default encoding), as a byte list. -/
def utf8Encode : List Char → List Nat
  | [] => []
  | c :: cs =>
    let n := c.toNat
    (if n < 128 then [n]
     else if n < 2048 then [192 + n / 64, 128 + n % 64]
     else if n < 65536 then [224 + n / 4096, 128 + (n / 64) % 64, 128 + n % 64]
     else [240 + n / 262144, 128 + (n / 4096) % 64, 128 + (n / 64) % 64, 128 + n % 64])
      ++ utf8Encode cs

/-- Big-endian bytes of `n`, `k` bytes wide. -/
def beBytes (k n : Nat) : List Nat :=
  (List.range k).map (fun i => (n >>> (8 * (k - 1 - i))) % 256)

/-- SHA-1 padding: append `0x80`, zeros to 56 mod 64, then the bit length
as 8 big-endian bytes. -/
def sha1Pad (msg : List Nat) : List Nat :=
  msg ++ 128 :: List.replicate ((55 + 64 - msg.length % 64) % 64) 0 ++
    beBytes 8 (msg.length * 8)

/-- Group a byte list into big-endian 32-bit words (fuel-driven so the
definition is structural; the fuel is the list length). -/
def group4Fuel : Nat → List Nat → List Nat
  | 0, _ => []
  | _, [] => []
  | f + 1, a :: rest =>
    (((a % 256) <<< 24) + ((rest.getD 0 0 % 256) <<< 16) +
      ((rest.getD 1 0 % 256) <<< 8) + rest.getD 2 0 % 256) :: group4Fuel f (rest.drop 3)

/-- Group a byte list into big-endian 32-bit words. -/
def group4 (l : List Nat) : List Nat := group4Fuel l.length l

/-- Split a byte list into 64-byte chunks (fuel-driven, structural). -/
def chunksFuel : Nat → List Nat → List (List Nat)
  | 0, _ => []
  | _, [] => []
  | f + 1, a :: rest => (a :: rest.take 63) :: chunksFuel f (rest.drop 63)

/-- Split a byte list into 64-byte chunks. -/
def toChunks (l : List Nat) : List (List Nat) := chunksFuel l.length l

/-- One message-schedule extension step: append
`rotl 1 (W[t-3] xor W[t-8] xor W[t-14] xor W[t-16])`. -/
def schedStep (w : List Nat) : List Nat :=
  w ++ [rotl 1 ((w.getD (w.length - 3) 0) ^^^ (w.getD (w.length - 8) 0) ^^^
    (w.getD (w.length - 14) 0) ^^^ (w.getD (w.length - 16) 0))]

/-- Iterate the schedule step. -/
def schedIter : Nat → List Nat → List Nat
  | 0, w => w
  | n + 1, w => schedIter n (schedStep w)

/-- Expand 16 words to the 80-word SHA-1 message schedule. -/
def sha1Sched (w16 : List Nat) : List Nat := schedIter 64 w16

/-- The 80 SHA-1 rounds, state threaded as five words. -/
def sha1Rounds (t : Nat) (ws : List Nat) (a b c d e : Nat) :
    Nat × Nat × Nat × Nat × Nat :=
  match ws with
  | [] => (a, b, c, d, e)
  | w :: rest =>
    let f :=
      if t < 20 then (b &&& c) ||| ((b ^^^ 4294967295) &&& d)
      else if t < 40 then b ^^^ c ^^^ d
      else if t < 60 then (b &&& c) ||| (b &&& d) ||| (c &&& d)
      else b ^^^ c ^^^ d
    let k :=
      if t < 20 then 1518500249
      else if t < 40 then 1859775393
      else if t < 60 then 2400959708
      else 3395469782
    sha1Rounds (t + 1) rest (m32 (rotl 5 a + f + e + k + w)) a (rotl 30 b) c d

/-- Compress one chunk (its 80-word schedule) into the running state. -/
def sha1Compress (h : List Nat) (ws : List Nat) : List Nat :=
  let st := sha1Rounds 0 ws (h.getD 0 0) (h.getD 1 0) (h.getD 2 0) (h.getD 3 0)
    (h.getD 4 0)
  [m32 (h.getD 0 0 + st.1), m32 (h.getD 1 0 + st.2.1), m32 (h.getD 2 0 + st.2.2.1),
   m32 (h.getD 3 0 + st.2.2.2.1), m32 (h.getD 4 0 + st.2.2.2.2)]

/-- The SHA-1 initial state. -/
def sha1Init : List Nat :=
  [1732584193, 4023233417, 2562383102, 271733878, 3285377520]

/-- SHA-1 digest of a byte list, as five 32-bit words. -/
def sha1Digest (msg : List Nat) : List Nat :=
  (toChunks (sha1Pad msg)).foldl (fun h ch => sha1Compress h (sha1Sched (group4 ch)))
    sha1Init

/-- One lowercase hex digit. -/
def hexDigit (n : Nat) : Char :=
  if n < 10 then Char.ofNat (48 + n) else Char.ofNat (87 + n)

/-- Eight hex digits of one 32-bit word, big-endian. -/
def hex8 (w : Nat) : List Char :=
  (List.range 8).map (fun i => hexDigit ((w >>> (4 * (7 - i))) % 16))

/-- The 40-character lowercase hex digest (the Python expression
`hashlib.sha1(b).hexdigest()`). -/
def sha1HexChars (msg : List Nat) : List Char :=
  ((sha1Digest msg).map hex8).flatten

/-! ## `filename_from_url` (lines 12 to 20 of `src/downurl.py`) -/

/-- The Python method call `path.rstrip("/")`: remove trailing slashes. -/
def rstripSlash (l : List Char) : List Char :=
  (l.reverse.dropWhile (· = '/')).reverse

/-- `path.rstrip("/").split("/")[-1]`: the text after the last slash. -/
def lastSeg (l : List Char) : List Char :=
  (l.reverse.takeWhile (· ≠ '/')).reverse

/-- The candidate name computed on line 15 of the source. -/
def segName (parts : UrlParts) : List Char := lastSeg (rstripSlash parts.path)

/-- Line 20 of the source, per character: keep `c` when `c.isalnum()` or
`c in "-_."`, else replace it with an underscore. -/
def sanitizeChar (c : Char) : Char :=
  if pyIsAlnum c || c = '-' || c = '_' || c = '.' then c else '_'

/-- Line 18 of the source: `".js"` when the URL ends in `.js` or `.mjs`,
else the empty suffix. -/
def jsExt (u : List Char) : List Char :=
  if List.isSuffixOf ['.', 'j', 's'] u || List.isSuffixOf ['.', 'm', 'j', 's'] u then
    ['.', 'j', 's']
  else []

/-- Lines 15 to 20 of the source, given the parsed URL: the hash fallback
when the final segment is empty or has no dot, else the sanitised
segment.  Note lines 17 and 18 use the original URL string, not the
parsed path. -/
def filenameFromParts (url : String) (parts : UrlParts) : String :=
  let name := segName parts
  if name = [] ∨ '.' ∉ name then
    String.mk ((sha1HexChars (utf8Encode url.data)).take 10 ++ jsExt url.data)
  else
    String.mk (name.map sanitizeChar)

/-- `filename_from_url` (lines 12 to 20 of `src/downurl.py`).  `none`
models the `ValueError` that `urlparse` raises on line 14; the function
is pure, so determinism across calls is immediate. -/
def filename_from_url (url : String) : Option String :=
  (urlparseCore url.data).map (filenameFromParts url)


/-! ## `download_file` (lines 22 to 32 of `src/downurl.py`)

The network and the filesystem are oracles given as arguments: `NetResult`
is the outcome of `session.get(url, timeout=15)` (a response with its
final status and the fully buffered body, or a transport exception with
its message), and the `Option String` argument is the outcome of
`os.makedirs` / `open` (`some msg` when one of them raises, with the
rendered message).  A failure after the file has been opened (a partial
write) is not modelled.  The result pairs the returned
`(success, info)` tuple with the content written to `dest`, if any. -/

/-- Outcome of the single GET request for one URL. -/
inductive NetResult where
  | ok (status : Nat) (body : List Nat)
  | err (msg : String)
deriving DecidableEq, Repr

/-- The message of the `requests.HTTPError` raised by
`raise_for_status`; its exact rendering (reason phrase, URL) is not in
any claim, so it is modelled as a fixed function of the status. -/
def http_error_msg (status : Nat) : String :=
  "HTTPError: status " ++ toString status

/-- `download_file` (lines 22 to 32): `raise_for_status` raises exactly
for statuses 400 to 599; every exception, including a filesystem one, is
caught by the `except` on line 31 and returned as `(False, str(e))`. -/
def download_file (net : NetResult) (fsErr : Option String) (dest : String) :
    (Bool × String) × Option (List Nat) :=
  match net with
  | .err m => ((false, m), none)
  | .ok s body =>
    if 400 ≤ s ∧ s < 600 then ((false, http_error_msg s), none)
    else
      match fsErr with
      | some m => ((false, m), none)
      | none => ((true, dest), some body)

/-! ## The batch driver in `main` (lines 34 to 62 of `src/downurl.py`) -/

/-- `os.path.join` for two components (posixpath semantics for the
relative, slash-free components the program builds). -/
def pathJoin (a b : String) : String :=
  if b.data.headD ' ' = '/' then b
  else if a = "" ∨ a.data.getLast? = some '/' then a ++ b
  else a ++ "/" ++ b

/-- One result record, as built on lines 51 to 60. -/
structure ResultRec where
  url : String
  host : String
  downloaded : List String
  errors : List String
deriving DecidableEq, Repr

/-- Line 42: keep the stripped form of every line whose stripped form is
nonempty. -/
def readUrls (lines : List String) : List String :=
  lines.filterMap (fun l =>
    let t := pyStrip l.data
    if t = [] then none else some (String.mk t))

/-- Lines 51 to 61 for one URL: parse (a `ValueError` from `urlparse`
would crash the process, modelled as `none`), derive host and
destination, run the download, and build the record with exactly one
entry in `downloaded` or `errors`. -/
def processUrl (net : String → NetResult) (fs : String → Option String)
    (url : String) : Option ResultRec :=
  match urlparseCore url.data with
  | none => none
  | some parts =>
    let host := String.mk parts.netloc
    let dest := pathJoin (pathJoin (pathJoin "output" host) "js")
      (filenameFromParts url parts)
    let r := download_file (net url) (fs url) dest
    some { url := url, host := host,
           downloaded := if r.1.1 then [r.1.2] else [],
           errors := if r.1.1 then [] else [r.1.2] }

/-- The loop on lines 50 to 61: one record per URL, in order. -/
def processUrls (net : String → NetResult) (fs : String → Option String) :
    List String → Option (List ResultRec)
  | [] => some []
  | u :: us =>
    match processUrl net fs u with
    | none => none
    | some r => (processUrls net fs us).map (fun rest => r :: rest)

/-! ## CLI entry (lines 84 to 88 and 34 to 45 of `src/downurl.py`) -/

/-- Observable steps of the program prologue. -/
inductive Ev where
  | printUsage
  | mkdirOutput
  | printBadArg
  | work
deriving DecidableEq, Repr

/-- The prologue: with no argument, print usage and exit 1 (lines 85 to
87); otherwise `main` first creates the `output` directory (line 36) and
only then checks `os.path.isfile` (line 40), printing an error and
exiting 1 when the check fails (lines 44 to 45).  `args` is
`sys.argv[1:]` and `isFile` the result of the `isfile` check; the pair is
the emitted step trace and `some code` for `sys.exit(code)`. -/
def cliRun (args : List String) (isFile : Bool) : List Ev × Option Nat :=
  match args with
  | [] => ([Ev.printUsage], some 1)
  | _ :: _ =>
    if isFile then ([Ev.mkdirOutput, Ev.work], none)
    else ([Ev.mkdirOutput, Ev.printBadArg], some 1)

/-! ## Reporter and archiver (lines 64 to 80 of `src/downurl.py`)

The on-disk state is a list of `(path, content)` pairs for the files
under `output/`.  Line 79 opens `output/output.tar.gz` for writing,
which creates the file on disk before `tar.add` walks the directory;
`tarfile.TarFile.add` compares each visited path with the archive path
and skips the archive itself, so the walk adds every other file. -/

/-- The report path built on line 65. -/
def reportPath : String := "output/report.txt"

/-- The archive path built on line 78. -/
def tarPath : String := "output/output.tar.gz"

/-- Disk and archive contents at the end of a run. -/
structure ArchiveRun where
  diskAtArchiveTime : List (String × List Nat)
  entries : List (String × List Nat)
deriving DecidableEq, Repr

/-- Lines 64 to 80 after the download loop: `written` is the downloaded
files on disk, `report` the bytes of `output/report.txt` written on
lines 66 to 75, and `partialBytes` the in-progress bytes of the archive
file at the moment the walk reaches it.  The entries are every file on
disk except the archive itself (the self-archiving skip in
`tarfile.TarFile.add`). -/
def archiveStep (written : List (String × List Nat)) (report partialBytes : List Nat) :
    ArchiveRun :=
  let disk1 := (written ++ [(reportPath, report)]) ++ [(tarPath, partialBytes)]
  { diskAtArchiveTime := disk1,
    entries := disk1.filter (fun p => p.1 ≠ tarPath) }

/-! ## Definitions written from the words of the spec, for comparison -/

/-- Modelled from the spec (section 4.1): keep exactly the characters of
the class listed there, ASCII letters, digits, hyphen, underscore and
dot, and replace every other character with an underscore.  Stated for
comparison with `sanitizeChar`, the map the code actually applies (which
uses the Unicode-aware Python method `str.isalnum`). -/
def specSanitizeChar (c : Char) : Char :=
  if ('A' ≤ c ∧ c ≤ 'Z') ∨ ('a' ≤ c ∧ c ≤ 'z') ∨ ('0' ≤ c ∧ c ≤ '9') ∨
      c = '-' ∨ c = '_' ∨ c = '.' then c
  else '_'

/-- Lowercase hexadecimal digits, the alphabet of `hexdigest`. -/
def isHexChar (c : Char) : Bool :=
  ('0' ≤ c && c ≤ '9') || ('a' ≤ c && c ≤ 'f')

/-! ## Helper lemmas -/

theorem sanitizeChar_eq_spec_of_ascii (c : Char) (h : c.toNat < 128) :
    sanitizeChar c = specSanitizeChar c := by
  have h128 : ∀ n : Fin 128,
      sanitizeChar (Char.ofNat n.val) = specSanitizeChar (Char.ofNat n.val) := by decide
  have := h128 ⟨c.toNat, h⟩
  rwa [Char.ofNat_toNat] at this

theorem sanitizeChar_ne_slash (c : Char) : sanitizeChar c ≠ '/' := by
  unfold sanitizeChar
  split
  · rename_i hc
    intro h
    rw [h] at hc
    simp at hc
    exact absurd hc (by decide)
  · simp

theorem restAfterScheme_sublist (l : List Char) : (restAfterScheme l).Sublist l := by
  unfold restAfterScheme
  split
  · exact List.Sublist.refl l
  · rename_i x rest hd
    split
    · exact List.Sublist.refl l
    · rename_i c cs ht
      split
      · have h1 : (x :: rest).Sublist l := hd ▸ List.dropWhile_sublist _
        exact (List.sublist_cons_self x rest).trans h1
      · exact List.Sublist.refl l

theorem netloc_subset (l : List Char) : ∀ c ∈ (netlocAndRest l).1, c ∈ l := by
  unfold netlocAndRest
  split
  · rename_i rest
    intro c hc
    have : c ∈ rest := (List.takeWhile_sublist _).subset hc
    exact List.mem_cons_of_mem _ (List.mem_cons_of_mem _ this)
  · intro c hc
    exact absurd hc (by simp)

theorem urlsplitCore_isSome (l0 : List Char)
    (h1 : '[' ∉ l0) (h2 : ']' ∉ l0) : (urlsplitCore l0).isSome = true := by
  unfold urlsplitCore
  have hs : ∀ c ∈ (netlocAndRest (restAfterScheme l0)).1, c ∈ l0 := by
    intro c hc
    exact (restAfterScheme_sublist l0).subset (netloc_subset _ c hc)
  rw [if_neg]
  · rfl
  · rintro (⟨ha, _⟩ | ⟨ha, _⟩)
    · exact h1 (hs _ ha)
    · exact h2 (hs _ ha)

theorem urlparseCore_isSome (l0 : List Char)
    (h1 : '[' ∉ l0) (h2 : ']' ∉ l0) : (urlparseCore l0).isSome = true := by
  unfold urlparseCore
  have hsub : ∀ c ∈ preprocessUrl l0, c ∈ l0 := by
    intro c hc
    have h3 : c ∈ l0.dropWhile (fun c => c.toNat ≤ 32) :=
      (List.filter_sublist _).subset hc
    exact (List.dropWhile_sublist _).subset h3
  have := urlsplitCore_isSome (preprocessUrl l0)
    (fun h => h1 (hsub _ h)) (fun h => h2 (hsub _ h))
  cases hu : urlsplitCore (preprocessUrl l0) with
  | none => rw [hu] at this; exact absurd this (by decide)
  | some p =>
    dsimp only
    split <;> rfl

theorem sha1Compress_length (h ws : List Nat) : (sha1Compress h ws).length = 5 := rfl

theorem sha1Digest_length (msg : List Nat) : (sha1Digest msg).length = 5 := by
  unfold sha1Digest
  have : ∀ (l : List (List Nat)) (init : List Nat), init.length = 5 →
      (l.foldl (fun h ch => sha1Compress h (sha1Sched (group4 ch))) init).length = 5 := by
    intro l
    induction l with
    | nil => intro init hi; exact hi
    | cons ch rest ih => intro init _; exact ih _ (sha1Compress_length _ _)
  exact this _ sha1Init rfl

theorem hex8_length (w : Nat) : (hex8 w).length = 8 := by
  simp [hex8]

theorem sha1HexChars_length (msg : List Nat) : (sha1HexChars msg).length = 40 := by
  unfold sha1HexChars
  have h5 := sha1Digest_length msg
  rw [List.length_flatten]
  rw [List.map_map]
  have : (List.map (List.length ∘ hex8) (sha1Digest msg)) =
      List.map (fun _ => 8) (sha1Digest msg) :=
    List.map_congr_left (fun a _ => hex8_length a)
  rw [this, List.map_const', List.sum_replicate, h5]
  norm_num

theorem hexDigit_isHex (n : Nat) (h : n < 16) : isHexChar (hexDigit n) = true := by
  have h16 : ∀ m : Fin 16, isHexChar (hexDigit m.val) = true := by decide
  exact h16 ⟨n, h⟩

theorem hex8_isHex (w : Nat) : ∀ c ∈ hex8 w, isHexChar c = true := by
  intro c hc
  unfold hex8 at hc
  obtain ⟨i, _, rfl⟩ := List.mem_map.mp hc
  exact hexDigit_isHex _ (Nat.mod_lt _ (by norm_num))

theorem sha1HexChars_isHex (msg : List Nat) :
    ∀ c ∈ sha1HexChars msg, isHexChar c = true := by
  intro c hc
  unfold sha1HexChars at hc
  obtain ⟨l, hl, hcl⟩ := List.mem_flatten.mp hc
  obtain ⟨w, _, rfl⟩ := List.mem_map.mp hl
  exact hex8_isHex w c hcl

theorem filenameFromParts_hash (url : String) (parts : UrlParts)
    (h : segName parts = [] ∨ '.' ∉ segName parts) :
    filenameFromParts url parts =
      String.mk ((sha1HexChars (utf8Encode url.data)).take 10 ++ jsExt url.data) := by
  unfold filenameFromParts
  exact if_pos h

theorem filenameFromParts_sanitize (url : String) (parts : UrlParts)
    (h1 : segName parts ≠ []) (h2 : '.' ∈ segName parts) :
    filenameFromParts url parts = String.mk ((segName parts).map sanitizeChar) := by
  unfold filenameFromParts
  exact if_neg (by push_neg; exact ⟨h1, h2⟩)

/-- C1 (amended): for every URL accepted by `urlparse` whose path, after
stripping trailing slashes, has a final slash-delimited segment that is
nonempty, contains a dot and consists of ASCII characters,
`filename_from_url` returns exactly that segment with every character
outside the class `A-Z a-z 0-9 - _ .` replaced by an underscore; the
function is pure, so the result is deterministic across calls.  (The
ASCII restriction on the segment is forced by the counterexample: the
code keeps any character the Unicode-aware Python method `str.isalnum`
accepts.  The bracket-free and ASCII-netloc hypotheses pin the domain on
which the parse model is exact with respect to CPython; outside it the
unmodelled bracketed-host validation or NFKC netloc check could make the
real `urlparse` raise where the model parses.) -/
theorem claim_C1_sanitize_ascii (url : String) (parts : UrlParts)
    (hp : urlparseCore url.data = some parts)
    (_hb1 : '[' ∉ url.data) (_hb2 : ']' ∉ url.data)
    (_hn : ∀ c ∈ parts.netloc, c.toNat < 128)
    (h1 : segName parts ≠ []) (h2 : '.' ∈ segName parts)
    (hA : ∀ c ∈ segName parts, c.toNat < 128) :
    filename_from_url url = some (String.mk ((segName parts).map specSanitizeChar)) := by
  unfold filename_from_url
  rw [hp, Option.map_some', filenameFromParts_sanitize url parts h1 h2]
  exact congrArg (fun l => some (String.mk l))
    (List.map_congr_left (fun c hc => sanitizeChar_eq_spec_of_ascii c (hA c hc)))

/-- C1 witness: the URL `http://h/a b.js` has final segment `a b.js`,
and the space becomes an underscore. -/
theorem claim_C1_sanitize_ascii_witness :
    filename_from_url "http://h/a b.js" =
      some (String.mk ((segName ⟨['h'], ['/', 'a', ' ', 'b', '.', 'j', 's']⟩).map
        specSanitizeChar)) :=
  claim_C1_sanitize_ascii "http://h/a b.js" ⟨['h'], ['/', 'a', ' ', 'b', '.', 'j', 's']⟩
    (by decide) (by decide) (by decide) (by decide) (by decide) (by decide) (by decide)

/-- C1 counterexample: on `http://h/fé.js` the final segment is `fé.js`;
the claim predicts `f_.js` (every character outside the ASCII class
replaced), but the code keeps `é` because the Python method `str.isalnum`
is Unicode aware, so it returns `fé.js`. -/
theorem claim_C1_counterexample :
    urlparseCore ("http://h/fé.js" : String).data =
      some ⟨['h'], ['/', 'f', 'é', '.', 'j', 's']⟩ ∧
    segName ⟨['h'], ['/', 'f', 'é', '.', 'j', 's']⟩ = ['f', 'é', '.', 'j', 's'] ∧
    filename_from_url "http://h/fé.js" = some "fé.js" ∧
    List.map specSanitizeChar ['f', 'é', '.', 'j', 's'] = ['f', '_', '.', 'j', 's'] ∧
    ("fé.js" : String) ≠ String.mk ['f', '_', '.', 'j', 's'] := by decide

/-- C2: when the final segment is empty or has no dot,
`filename_from_url` returns the first 10 characters of the SHA-1 hex
digest of the full URL string, suffixed with `.js` exactly when the URL
ends in `.js` or `.mjs`; the 10-character prefix really has length 10
and consists of hexadecimal characters.  The function is pure, so the
same URL always yields the same filename.  (The bracket-free and
ASCII-netloc hypotheses pin the domain on which the parse model is exact
with respect to CPython, as in the C1 theorem.) -/
theorem claim_C2_hash_fallback (url : String) (parts : UrlParts)
    (hp : urlparseCore url.data = some parts)
    (_hb1 : '[' ∉ url.data) (_hb2 : ']' ∉ url.data)
    (_hn : ∀ c ∈ parts.netloc, c.toNat < 128)
    (hname : segName parts = [] ∨ '.' ∉ segName parts) :
    filename_from_url url =
      some (String.mk ((sha1HexChars (utf8Encode url.data)).take 10 ++ jsExt url.data)) ∧
    ((sha1HexChars (utf8Encode url.data)).take 10).length = 10 ∧
    (∀ c ∈ (sha1HexChars (utf8Encode url.data)).take 10, isHexChar c = true) ∧
    (jsExt url.data = ['.', 'j', 's'] ↔
      (List.isSuffixOf ['.', 'j', 's'] url.data = true ∨
       List.isSuffixOf ['.', 'm', 'j', 's'] url.data = true)) := by
  refine ⟨?_, ?_, ?_, ?_⟩
  · unfold filename_from_url
    rw [hp, Option.map_some', filenameFromParts_hash url parts hname]
  · simp [List.length_take, sha1HexChars_length]
  · intro c hc
    exact sha1HexChars_isHex _ c ((List.take_sublist _ _).subset hc)
  · unfold jsExt
    split
    · rename_i hcond
      rw [Bool.or_eq_true] at hcond
      exact ⟨fun _ => hcond, fun _ => rfl⟩
    · rename_i hcond
      rw [Bool.or_eq_true] at hcond
      constructor
      · intro h; exact absurd h (by decide)
      · intro h; exact absurd h hcond

/-- C2 witness at `http://h/x` (segment `x`, no dot; URL does not end in
`.js` or `.mjs`). -/
theorem claim_C2_hash_fallback_witness :
    filename_from_url "http://h/x" =
      some (String.mk ((sha1HexChars (utf8Encode ("http://h/x" : String).data)).take 10 ++
        jsExt ("http://h/x" : String).data)) ∧
    ((sha1HexChars (utf8Encode ("http://h/x" : String).data)).take 10).length = 10 ∧
    (∀ c ∈ (sha1HexChars (utf8Encode ("http://h/x" : String).data)).take 10,
      isHexChar c = true) ∧
    (jsExt ("http://h/x" : String).data = ['.', 'j', 's'] ↔
      (List.isSuffixOf ['.', 'j', 's'] ("http://h/x" : String).data = true ∨
       List.isSuffixOf ['.', 'm', 'j', 's'] ("http://h/x" : String).data = true)) :=
  claim_C2_hash_fallback "http://h/x" ⟨['h'], ['/', 'x']⟩ (by decide) (by decide)
    (by decide) (by decide) (by decide)

/-- C9 counterexample: `filename_from_url` is not total.  On the input
`http://[` the netloc is `[` with no closing bracket, so `urlparse`
raises `ValueError` (modelled by `none`) instead of returning a value. -/
theorem claim_C9_counterexample : filename_from_url "http://[" = none := by decide

/-- C9 (amended): `filename_from_url` returns a value and raises no
error on every ASCII input that contains no square bracket.  (The ASCII
restriction also covers the unmodelled CPython netloc checks, which can
only raise on non-ASCII or bracketed netlocs.) -/
theorem claim_C9_total_ascii (url : String)
    (hA : ∀ c ∈ url.data, c.toNat < 128)
    (h1 : '[' ∉ url.data) (h2 : ']' ∉ url.data) :
    (filename_from_url url).isSome = true := by
  have h := urlparseCore_isSome url.data h1 h2
  unfold filename_from_url
  cases hu : urlparseCore url.data with
  | none => rw [hu] at h; exact absurd h (by decide)
  | some p => rfl

/-- C9 witness at the ASCII bracket-free URL `http://h/x.js`. -/
theorem claim_C9_total_ascii_witness :
    (filename_from_url "http://h/x.js").isSome = true :=
  claim_C9_total_ascii "http://h/x.js" (by decide) (by decide) (by decide)

/-- C10: whenever `filename_from_url` returns a value, that value is a
nonempty string containing no slash, hence a single path component. -/
theorem claim_C10_single_component (url r : String)
    (h : filename_from_url url = some r) :
    r.data ≠ [] ∧ '/' ∉ r.data := by
  unfold filename_from_url at h
  cases hu : urlparseCore url.data with
  | none => rw [hu] at h; exact absurd h (by simp)
  | some parts =>
    rw [hu, Option.map_some', Option.some.injEq] at h
    by_cases hb : segName parts = [] ∨ '.' ∉ segName parts
    · rw [← h, filenameFromParts_hash url parts hb]
      constructor
      · show (sha1HexChars (utf8Encode url.data)).take 10 ++ jsExt url.data ≠ []
        apply List.ne_nil_of_length_pos
        rw [List.length_append, List.length_take, sha1HexChars_length]
        norm_num
      · show '/' ∉ (sha1HexChars (utf8Encode url.data)).take 10 ++ jsExt url.data
        intro hc
        rcases List.mem_append.mp hc with hc | hc
        · have := sha1HexChars_isHex _ _ ((List.take_sublist _ _).subset hc)
          exact absurd this (by decide)
        · unfold jsExt at hc
          split at hc
          · exact absurd hc (by decide)
          · exact absurd hc (by simp)
    · push_neg at hb
      rw [← h, filenameFromParts_sanitize url parts hb.1 hb.2]
      constructor
      · show (segName parts).map sanitizeChar ≠ []
        simp [List.map_eq_nil_iff, hb.1]
      · show '/' ∉ (segName parts).map sanitizeChar
        intro hc
        obtain ⟨c, _, hc2⟩ := List.mem_map.mp hc
        exact sanitizeChar_ne_slash c hc2

/-- C10 witness: at `http://h/x.js` the function returns `x.js`, which
is nonempty and slash-free. -/
theorem claim_C10_single_component_witness :
    ("x.js" : String).data ≠ [] ∧ '/' ∉ ("x.js" : String).data :=
  claim_C10_single_component "http://h/x.js" "x.js" (by decide)

/-- C3 (amended): the download step reports failure exactly when the GET
raises a transport error, or the final status is in 400..599 (the range
`raise_for_status` raises for), or the status is outside that range but
directory creation / file opening raises; on transport or HTTP failure
it returns the error description as a string and writes no file; on
success it returns the destination path and writes the full body there
(after creating missing parent directories, overwriting any existing
file).  Forced by the counterexample: a non-2xx status below 400 (such
as 304) is reported as success, and a caught filesystem error is also
reported as failure. -/
theorem claim_C3_amended (net : NetResult) (fsErr : Option String) (dest : String) :
    ((download_file net fsErr dest).1.1 = false ↔
      ((∃ m, net = NetResult.err m) ∨
       (∃ s b, net = NetResult.ok s b ∧ 400 ≤ s ∧ s < 600) ∨
       (∃ s b m, net = NetResult.ok s b ∧ ¬(400 ≤ s ∧ s < 600) ∧ fsErr = some m))) ∧
    (∀ m, net = NetResult.err m →
      (download_file net fsErr dest).1.2 = m ∧ (download_file net fsErr dest).2 = none) ∧
    (∀ s b, net = NetResult.ok s b → 400 ≤ s → s < 600 →
      (download_file net fsErr dest).2 = none) ∧
    (∀ s b, net = NetResult.ok s b → ¬(400 ≤ s ∧ s < 600) → fsErr = none →
      download_file net fsErr dest = ((true, dest), some b)) := by
  cases net with
  | err m =>
    refine ⟨⟨fun _ => Or.inl ⟨m, rfl⟩, fun _ => rfl⟩, fun m' h => ?_, ?_, ?_⟩
    · injection h with e; subst e; exact ⟨rfl, rfl⟩
    · intro s b h; exact absurd h (by simp)
    · intro s b h; exact absurd h (by simp)
  | ok s body =>
    by_cases hs : 400 ≤ s ∧ s < 600
    · have hd : download_file (NetResult.ok s body) fsErr dest =
          ((false, http_error_msg s), none) := by
        unfold download_file; dsimp only; rw [if_pos hs]
      refine ⟨⟨fun _ => Or.inr (Or.inl ⟨s, body, rfl, hs.1, hs.2⟩), fun _ => by rw [hd]⟩,
        ?_, ?_, ?_⟩
      · intro m h; exact absurd h (by simp)
      · intro s' b' h h1 h2; rw [hd]
      · intro s' b' h hns _
        injection h with e1 e2; subst e1; exact absurd hs hns
    · cases fsErr with
      | some m =>
        have hd : download_file (NetResult.ok s body) (some m) dest = ((false, m), none) := by
          unfold download_file; dsimp only; rw [if_neg hs]
        refine ⟨⟨fun _ => Or.inr (Or.inr ⟨s, body, m, rfl, hs, rfl⟩), fun _ => by rw [hd]⟩,
          ?_, ?_, ?_⟩
        · intro m' h; exact absurd h (by simp)
        · intro s' b' h h1 h2
          injection h with e1 e2; subst e1; exact absurd ⟨h1, h2⟩ hs
        · intro s' b' h hns hfs; exact absurd hfs (by simp)
      | none =>
        have hd : download_file (NetResult.ok s body) none dest =
            ((true, dest), some body) := by
          unfold download_file; dsimp only; rw [if_neg hs]
        refine ⟨⟨?_, ?_⟩, ?_, ?_, ?_⟩
        · intro hfalse; rw [hd] at hfalse; simp at hfalse
        · rintro (⟨m, h⟩ | ⟨s', b', h, h1, h2⟩ | ⟨s', b', m, h, hns, hfs⟩)
          · exact absurd h (by simp)
          · injection h with e1 e2; subst e1; exact absurd ⟨h1, h2⟩ hs
          · exact absurd hfs (by simp)
        · intro m h; exact absurd h (by simp)
        · intro s' b' h h1 h2
          injection h with e1 e2; subst e1; exact absurd ⟨h1, h2⟩ hs
        · intro s' b' h hns hfs
          injection h with e1 e2; subst e1; subst e2; exact hd

/-- C3 witness: a 404 is reported as failure with no file written, and a
200 with no filesystem error writes the full body and returns the path. -/
theorem claim_C3_amended_witness :
    (download_file (NetResult.ok 404 []) none "output/h/js/f").1.1 = false ∧
    (download_file (NetResult.ok 404 []) none "output/h/js/f").2 = none ∧
    download_file (NetResult.ok 200 [55]) none "output/h/js/f" =
      ((true, "output/h/js/f"), some [55]) :=
  ⟨(claim_C3_amended (NetResult.ok 404 []) none "output/h/js/f").1.mpr
      (Or.inr (Or.inl ⟨404, [], rfl, by norm_num, by norm_num⟩)),
   (claim_C3_amended (NetResult.ok 404 []) none "output/h/js/f").2.2.1 404 [] rfl
      (by norm_num) (by norm_num),
   (claim_C3_amended (NetResult.ok 200 [55]) none "output/h/js/f").2.2.2 200 [55] rfl
      (by omega) rfl⟩

/-- C3 counterexample: a 304 response is a non-2xx status, yet
`raise_for_status` does not raise for it, so the code reports success
and writes the (empty) body, contradicting the claim that every non-2xx
status is reported as failure. -/
theorem claim_C3_counterexample :
    download_file (NetResult.ok 304 []) none "output/h/js/f" =
      ((true, "output/h/js/f"), some []) ∧
    ¬(200 ≤ 304 ∧ 304 < 300) := by decide

/-- C4 (amended): a filesystem error raised during per-download
directory creation or file opening IS caught, by the `except Exception`
on line 31, and returned as the per-URL error string; it does not
propagate out of the download step.  (Only the report write and the
archiving, lines 64 to 80, run outside any handler.) -/
theorem claim_C4_amended (s : Nat) (b : List Nat) (m dest : String)
    (hs : ¬(400 ≤ s ∧ s < 600)) :
    download_file (NetResult.ok s b) (some m) dest = ((false, m), none) := by
  unfold download_file
  dsimp only
  rw [if_neg hs]

/-- C4 witness: a permission error during `os.makedirs` on a 200
response is returned as the error string. -/
theorem claim_C4_amended_witness :
    download_file (NetResult.ok 200 []) (some "PermissionError: mkdir") "output/h/js/f" =
      ((false, "PermissionError: mkdir"), none) :=
  claim_C4_amended 200 [] "PermissionError: mkdir" "output/h/js/f" (by omega)

/-- C4 counterexample: with a successful GET and a filesystem error, the
download step returns `(False, str(e))` — the error is caught and
recorded as a per-URL error string, not propagated to terminate the
process as the claim states. -/
theorem claim_C4_counterexample :
    download_file (NetResult.ok 200 [104, 105]) (some "PermissionError: mkdir output")
      "output/h/js/f" = ((false, "PermissionError: mkdir output"), none) := by decide

theorem processUrl_some_shape (net : String → NetResult) (fs : String → Option String)
    (u : String) (r : ResultRec) (h : processUrl net fs u = some r) :
    r.url = u ∧ r.downloaded.length + r.errors.length = 1 ∧
    ∃ parts, urlparseCore u.data = some parts ∧ r.host = String.mk parts.netloc := by
  unfold processUrl at h
  cases hu : urlparseCore u.data with
  | none => rw [hu] at h; exact absurd h (by simp)
  | some parts =>
    rw [hu] at h
    dsimp only at h
    rw [Option.some.injEq] at h
    subst h
    refine ⟨rfl, ?_, parts, rfl, rfl⟩
    by_cases hb : (download_file (net u)  (fs u)
        (pathJoin (pathJoin (pathJoin "output" (String.mk parts.netloc)) "js")
          (filenameFromParts u parts))).1.1 = true
    · simp [hb]
    · simp [hb]

theorem processUrls_shape (net : String → NetResult) (fs : String → Option String) :
    ∀ (us : List String) (rs : List ResultRec),
    processUrls net fs us = some rs →
    rs.map ResultRec.url = us ∧
    ∀ r ∈ rs, r.downloaded.length + r.errors.length = 1 ∧
      ∃ parts, urlparseCore r.url.data = some parts ∧ r.host = String.mk parts.netloc := by
  intro us
  induction us with
  | nil =>
    intro rs h
    simp only [processUrls, Option.some.injEq] at h
    subst h
    exact ⟨rfl, by simp⟩
  | cons u us ih =>
    intro rs h
    unfold processUrls at h
    cases hp : processUrl net fs u with
    | none => rw [hp] at h; exact absurd h (by simp)
    | some r =>
      rw [hp] at h
      cases hrest : processUrls net fs us with
      | none => rw [hrest] at h; exact absurd h (by simp)
      | some rest =>
        rw [hrest] at h
        dsimp only at h
        rw [Option.map_some', Option.some.injEq] at h
        subst h
        obtain ⟨hu, hlen, hhost⟩ := processUrl_some_shape net fs u r hp
        obtain ⟨ihmap, ihall⟩ := ih rest hrest
        refine ⟨by simp [hu, ihmap], ?_⟩
        intro x hx
        rcases List.mem_cons.mp hx with rfl | hx
        · refine ⟨hlen, ?_⟩
          rw [hu]
          exact hhost
        · exact ihall x hx

theorem readUrls_length (lines : List String) :
    (readUrls lines).length = lines.countP (fun l => !(pyStrip l.data).isEmpty) := by
  induction lines with
  | nil => rfl
  | cons l ls ih =>
    unfold readUrls at ih ⊢
    rw [List.filterMap_cons, List.countP_cons]
    by_cases ht : pyStrip l.data = []
    · simp [ht, ih]
    · simp [ht, ih, List.isEmpty_iff]

/-- C5: for every input whose nonempty (after stripping) lines are the
URL list, a completed run produces exactly one result record per
nonempty line, in input order; empty or whitespace-only lines produce no
record.  (The hypothesis that `processUrls` completes excludes the runs
that crash on a `ValueError` from `urlparse`.) -/
theorem claim_C5_one_record_per_line (net : String → NetResult)
    (fs : String → Option String) (lines : List String) (rs : List ResultRec)
    (h : processUrls net fs (readUrls lines) = some rs) :
    rs.map ResultRec.url = readUrls lines ∧
    rs.length = lines.countP (fun l => !(pyStrip l.data).isEmpty) := by
  obtain ⟨hmap, _⟩ := processUrls_shape net fs (readUrls lines) rs h
  refine ⟨hmap, ?_⟩
  have hl : rs.length = (readUrls lines).length := by
    rw [← hmap, List.length_map]
  rw [hl, readUrls_length]

/-- C5 witness: three input lines, one nonempty, give one record. -/
theorem claim_C5_one_record_per_line_witness :
    [({url := "http://a/x.js", host := "a", downloaded := ["output/a/js/x.js"],
        errors := []} : ResultRec)].map ResultRec.url =
      readUrls ["http://a/x.js", "  ", ""] ∧
    [({url := "http://a/x.js", host := "a", downloaded := ["output/a/js/x.js"],
        errors := []} : ResultRec)].length =
      (["http://a/x.js", "  ", ""] : List String).countP
        (fun l => !(pyStrip l.data).isEmpty) :=
  claim_C5_one_record_per_line (fun _ => NetResult.ok 200 []) (fun _ => none)
    ["http://a/x.js", "  ", ""]
    [{url := "http://a/x.js", host := "a", downloaded := ["output/a/js/x.js"],
        errors := []}]
    (by decide)

/-- C6: every result record of a completed run has exactly one entry
split between `downloaded` and `errors`, and its `host` field is the
network-location component of its URL. -/
theorem claim_C6_record_invariant (net : String → NetResult)
    (fs : String → Option String) (urls : List String) (rs : List ResultRec)
    (h : processUrls net fs urls = some rs) :
    ∀ r ∈ rs, r.downloaded.length + r.errors.length = 1 ∧
      ∃ parts, urlparseCore r.url.data = some parts ∧ r.host = String.mk parts.netloc :=
  (processUrls_shape net fs urls rs h).2

/-- C6 witness: a failing URL yields one error entry and the host
`b.test`. -/
theorem claim_C6_record_invariant_witness :
    ([] : List String).length + (["boom"] : List String).length = 1 ∧
    ∃ parts, urlparseCore ("http://b.test/y.js" : String).data = some parts ∧
      ("b.test" : String) = String.mk parts.netloc :=
  claim_C6_record_invariant (fun _ => NetResult.err "boom") (fun _ => none)
    ["http://b.test/y.js"]
    [{url := "http://b.test/y.js", host := "b.test", downloaded := [],
        errors := ["boom"]}]
    (by decide)
    {url := "http://b.test/y.js", host := "b.test", downloaded := [],
        errors := ["boom"]}
    (by simp)

/-- C7 (amended): with the positional argument missing the program
prints the usage line and exits with status 1 before doing anything
else; with an argument that is not a regular file it exits with status 1
before reading input or downloading anything, but only after `main` has
already created the `output` directory (line 36 runs before the
`isfile` check on line 40).  Forced by the counterexample: the
invalid-path case does not exit before creating output directories. -/
theorem claim_C7_amended (args : List String) (isFile : Bool) :
    (args = [] → cliRun args isFile = ([Ev.printUsage], some 1)) ∧
    (args ≠ [] → isFile = false →
      cliRun args isFile = ([Ev.mkdirOutput, Ev.printBadArg], some 1) ∧
      Ev.work ∉ (cliRun args isFile).1) := by
  cases args with
  | nil => exact ⟨fun _ => rfl, fun h _ => absurd rfl h⟩
  | cons a rest =>
    refine ⟨fun h => absurd h (by simp), fun _ hf => ?_⟩
    subst hf
    refine ⟨rfl, ?_⟩
    show Ev.work ∉ [Ev.mkdirOutput, Ev.printBadArg]
    decide

/-- C7 witness: both bad invocations exit with status 1. -/
theorem claim_C7_amended_witness :
    cliRun [] true = ([Ev.printUsage], some 1) ∧
    cliRun ["urls.txt"] false = ([Ev.mkdirOutput, Ev.printBadArg], some 1) :=
  ⟨(claim_C7_amended [] true).1 rfl,
   ((claim_C7_amended ["urls.txt"] false).2 (by simp) rfl).1⟩

/-- C7 counterexample: when the argument is not a regular file the
program does exit with status 1, but the trace already contains the
creation of the `output` directory, so it does not exit before creating
any output directories as the claim states. -/
theorem claim_C7_counterexample :
    cliRun ["urls.txt"] false = ([Ev.mkdirOutput, Ev.printBadArg], some 1) ∧
    Ev.mkdirOutput ∈ (cliRun ["urls.txt"] false).1 ∧
    (cliRun ["urls.txt"] false).2 = some 1 := by decide

/-- C8 (amended): the archive is created strictly after the report is
written (it is built from the disk state that already contains
`output/report.txt`), its entries are exactly the pre-archive output
tree byte for byte, `report.txt` included, and it does not include its
own content: `tarfile.TarFile.add` skips the archive file itself.
Forced by the counterexample: the archive file is on disk at archive
time, so extraction reproduces every file of the tree except the
archive itself, not the whole disk tree at archive time. -/
theorem claim_C8_archive (written : List (String × List Nat))
    (report partialBytes : List Nat)
    (h1 : ∀ p ∈ written, p.1 ≠ tarPath) :
    (archiveStep written report partialBytes).entries =
      written ++ [(reportPath, report)] ∧
    (reportPath, report) ∈ (archiveStep written report partialBytes).entries ∧
    tarPath ∉ ((archiveStep written report partialBytes).entries).map Prod.fst ∧
    tarPath ∈ ((archiveStep written report partialBytes).diskAtArchiveTime).map Prod.fst := by
  have hent : (archiveStep written report partialBytes).entries =
      written ++ [(reportPath, report)] := by
    unfold archiveStep
    dsimp only
    rw [List.filter_append]
    have hkeep : List.filter (fun p => decide (p.1 ≠ tarPath))
        (written ++ [(reportPath, report)]) = written ++ [(reportPath, report)] := by
      apply List.filter_eq_self.mpr
      intro p hp
      rcases List.mem_append.mp hp with hw | hr
      · simpa using h1 p hw
      · have hpe : p = (reportPath, report) := by simpa using hr
        subst hpe
        show decide ((reportPath : String) ≠ tarPath) = true
        decide
    have hdrop : List.filter (fun p => decide (p.1 ≠ tarPath))
        [(tarPath, partialBytes)] = [] := by
      rw [List.filter_cons, List.filter_nil]
      rw [if_neg]
      intro hh
      have : decide ((tarPath : String) ≠ tarPath) = true := hh
      exact absurd this (by decide)
    rw [hkeep, hdrop, List.append_nil]
  refine ⟨hent, ?_, ?_, ?_⟩
  · rw [hent]
    exact List.mem_append_right _ (by simp)
  · rw [hent, List.map_append]
    intro hmem
    rcases List.mem_append.mp hmem with hm | hm
    · obtain ⟨p, hp, hpe⟩ := List.mem_map.mp hm
      exact h1 p hp hpe
    · simp at hm
      exact absurd hm (by decide)
  · unfold archiveStep
    dsimp only
    rw [List.map_append]
    exact List.mem_append_right _ (by simp)

/-- C8 witness: one downloaded file plus the report are archived; the
archive file itself is on disk but not among the entries. -/
theorem claim_C8_archive_witness :
    (archiveStep [("output/a.test/js/app.js", [1, 2])] [82] [31]).entries =
      [("output/a.test/js/app.js", [1, 2])] ++ [(reportPath, [82])] ∧
    (reportPath, [82]) ∈
      (archiveStep [("output/a.test/js/app.js", [1, 2])] [82] [31]).entries ∧
    tarPath ∉
      ((archiveStep [("output/a.test/js/app.js", [1, 2])] [82] [31]).entries).map
        Prod.fst ∧
    tarPath ∈
      ((archiveStep [("output/a.test/js/app.js", [1, 2])] [82]
        [31]).diskAtArchiveTime).map Prod.fst :=
  claim_C8_archive [("output/a.test/js/app.js", [1, 2])] [82] [31] (by decide)

/-- C8 counterexample: the disk tree at archive time contains the
in-progress `output/output.tar.gz`, which the archive entries do not,
so extracting the archive does not reproduce the disk tree as it
existed at archive time byte for byte. -/
theorem claim_C8_counterexample :
    tarPath ∈ ((archiveStep [] [] [0]).diskAtArchiveTime).map Prod.fst ∧
    tarPath ∉ ((archiveStep [] [] [0]).entries).map Prod.fst ∧
    (archiveStep [] [] [0]).entries ≠ (archiveStep [] [] [0]).diskAtArchiveTime := by
  decide
